import Mathlib

/-!
# Verification of the Unproductive Site Blocker background engine

This file gives a shallow embedding, in Lean 4, of the Manifest-V3 service
worker of the unproductive-site-blocker extension (the revision whose event
listeners all begin with an ensureInit hydration call), together with proofs
and refutations of the specification claims about it.

Modelling conventions:
* JavaScript numbers that the engine uses as timestamps, accumulated
  seconds and rule ids are integers in every reachable state, so they are
  embedded as Int, with the 32-bit wrap of the bitwise or-with-0 made
  explicit where the source performs it.
* The chrome.storage.local map is modelled by its typed contents: the
  per-day usage table (indexed by an abstract calendar-day index, standing
  for the usage_YYYY_MM_DD key produced by todayKey), plus the
  activeDomain and activeStart keys.  The retention sweep, which works on
  the raw string keys, is modelled separately on a list of raw keys.
* The dynamic declarativeNetRequest rule table is modelled as a list of
  rules; updateDynamicRules removes the listed ids and then appends the
  added rules.
* JavaScript truthiness tests on strings and numbers (empty string and 0
  are falsy) are made explicit at each place the source performs them.
-/

namespace Blocker

/-- JS ToInt32, the effect of the bitwise or-with-0 in the hash loop of
ruleIdFor: reduce modulo 2^32 into the signed range. -/
def toInt32 (n : Int) : Int :=
  (n + 2147483648) % 4294967296 - 2147483648

/-- JS remainder operator on integers: truncated division remainder,
carrying the sign of the dividend. -/
def jsMod (a b : Int) : Int := Int.tmod a b

/-- JS Math.round applied to a millisecond difference divided by 1000,
as in flushActiveTimer: Math.round(x) is the floor of x + 1/2. -/
def jsRoundDiv1000 (d : Int) : Int := Int.fdiv (2 * d + 1000) 2000

/-- Constant DYNAMIC_RULE_ID_START from the source. -/
def DYNAMIC_RULE_ID_START : Int := 1000

/-- Constant USAGE_RETENTION_DAYS from the source. -/
def USAGE_RETENTION_DAYS : Nat := 7

/-- PolicyConfig: the user settings object.  restrictedDomains maps a
domain to its dailyLimitMinutes entry; the association list keeps the
object key order that Object.keys exposes. -/
structure Settings where
  restrictedDomains : List (String × Int)
  deriving Repr, DecidableEq

/-- Source getTrackedDomains: Object.keys(settings.restrictedDomains). -/
def getTrackedDomains (s : Settings) : List String :=
  s.restrictedDomains.map Prod.fst

/-- Source getLimitSeconds: dailyLimitMinutes * 60 for a configured
domain; none models the Infinity returned for an unconfigured one. -/
def getLimitSeconds (s : Settings) (domain : String) : Option Int :=
  (s.restrictedDomains.lookup domain).map (fun m => m * 60)

/-- Source ruleIdFor: the 31-based string hash with 32-bit wrap, then
DYNAMIC_RULE_ID_START + Math.abs(hash % 10000).  Character codes are the
code points of the string (identical to the UTF-16 units the source reads
for the basic-plane strings domains are). -/
def ruleIdFor (domain : String) : Int :=
  let hash := domain.data.foldl (fun h c => toInt32 (h * 31 + (c.toNat : Int))) 0
  DYNAMIC_RULE_ID_START + (jsMod hash 10000).natAbs

/-- One dynamic declarativeNetRequest rule as built by
addDynamicBlockRule (action type and resourceTypes are fixed). -/
structure Rule where
  id : Int
  priority : Int
  urlFilter : String
  domain : String
  deriving Repr, DecidableEq

/-- The rule object addDynamicBlockRule constructs for a domain. -/
def mkBlockRule (domain : String) : Rule :=
  { id := ruleIdFor domain, priority := 1, urlFilter := "||" ++ domain, domain := domain }

/-- Model of chrome.declarativeNetRequest.updateDynamicRules: remove every
rule whose id is listed, then append the added rules. -/
def updateDynamicRules (removeRuleIds : List Int) (addRules : List Rule)
    (rules : List Rule) : List Rule :=
  rules.filter (fun r => !(removeRuleIds.contains r.id)) ++ addRules

/-- Source addDynamicBlockRule: remove-then-add by the deterministic id. -/
def addDynamicBlockRule (domain : String) (rules : List Rule) : List Rule :=
  updateDynamicRules [ruleIdFor domain] [mkBlockRule domain] rules

/-- Source removeDynamicBlockRule: remove by the deterministic id. -/
def removeDynamicBlockRule (domain : String) (rules : List Rule) : List Rule :=
  updateDynamicRules [ruleIdFor domain] [] rules

/-- Source removeAllDynamicBlockRules: enumerate the dynamic rules and
remove every listed id (the early return on an empty table is the
identity in the model as well). -/
def removeAllDynamicBlockRules (rules : List Rule) : List Rule :=
  if rules.length > 0 then updateDynamicRules (rules.map Rule.id) [] rules else rules

/-- The whole observable state an event handler can touch: the durable
stores (chrome.storage.sync settings key, the day-keyed usage entries and
the activeDomain / activeStart keys of chrome.storage.local), the dynamic
rule table, and the service-worker in-memory globals. -/
structure World where
  syncSettings : Option Settings
  usageByDay : Nat → Option (String → Int)
  savedActiveDomain : Option String
  savedActiveStart : Option Int
  rules : List Rule
  settings : Settings
  todayUsage : String → Int
  activeDomain : Option String
  activeStart : Option Int

/-- JS expression x || null for a nullable string x: an empty string is
falsy and collapses to null. -/
def jsOrNullStr : Option String → Option String
  | some s => if s = "" then none else some s
  | none => none

/-- JS expression x || null for a nullable number x: 0 is falsy and
collapses to null. -/
def jsOrNullInt : Option Int → Option Int
  | some n => if n = 0 then none else some n
  | none => none

/-- Source ensureInit: rehydrate the in-memory globals from storage.  The
settings global is replaced only when the stored value has a
restrictedDomains field (modelled by presence of syncSettings); today's
usage defaults to an empty map; the persisted timer snapshot is loaded
unconditionally, through the || null collapses of the source. -/
def ensureInit (day : Nat) (w : World) : World :=
  { w with
    settings := w.syncSettings.getD w.settings
    todayUsage := (w.usageByDay day).getD (fun _ => 0)
    activeDomain := jsOrNullStr w.savedActiveDomain
    activeStart := jsOrNullInt w.savedActiveStart }

/-- Pointwise update of a usage map, modelling todayUsage[d] = v. -/
def setUsage (u : String → Int) (d : String) (v : Int) : String → Int :=
  fun x => if x = d then v else u x

/-- Source flushActiveTimer: when both globals are truthy, add the rounded
elapsed seconds to the active domain's entry, but only on a positive
elapsed value, and restart the timer at now. -/
def flushActiveTimer (now : Int) (w : World) : World :=
  match w.activeDomain, w.activeStart with
  | some d, some s =>
    if d ≠ "" ∧ s ≠ 0 then
      let elapsed := jsRoundDiv1000 (now - s)
      if 0 < elapsed then
        { w with
          todayUsage := setUsage w.todayUsage d (w.todayUsage d + elapsed)
          activeStart := some now }
      else w
    else w
  | _, _ => w

/-- Source persistUsage: flush, then write today's usage map and the
timer snapshot to chrome.storage.local. -/
def persistUsage (day : Nat) (now : Int) (w : World) : World :=
  let w1 := flushActiveTimer now w
  { w1 with
    usageByDay := fun n => if n = day then some w1.todayUsage else w1.usageByDay n
    savedActiveDomain := w1.activeDomain
    savedActiveStart := w1.activeStart }

/-- Limit comparison of checkLimits: (todayUsage[domain] || 0) >= limit,
where an unconfigured domain has limit Infinity and the comparison is
false. -/
def overLimit (s : Settings) (u : String → Int) (domain : String) : Bool :=
  match getLimitSeconds s domain with
  | some l => l ≤ u domain
  | none => false

/-- Rule-table effect of one checkLimits pass: for every tracked domain in
order, remove-then-add its block rule when usage has reached the limit. -/
def checkLimitsRules (s : Settings) (u : String → Int) (rules : List Rule) : List Rule :=
  (getTrackedDomains s).foldl
    (fun rs d => if overLimit s u d then addDynamicBlockRule d rs else rs) rules

/-- Ids of the rules a checkLimits pass re-adds: one per over-limit
domain of the iterated list, in order. -/
def appliedIds (s : Settings) (u : String → Int) (L : List String) : List Int :=
  (L.filter (fun d => overLimit s u d)).map ruleIdFor

/-- Source checkLimits on the whole state. -/
def checkLimits (w : World) : World :=
  { w with rules := checkLimitsRules w.settings w.todayUsage w.rules }

/-- Source setActiveDomain: flush the running timer, start a timer when
the new domain is truthy and tracked (otherwise clear it), then
persistUsage and checkLimits. -/
def setActiveDomain (day : Nat) (now : Int) (domain : Option String) (w : World) : World :=
  let w1 := flushActiveTimer now w
  let tracked := getTrackedDomains w1.settings
  let w2 :=
    match domain with
    | some d =>
      if d ≠ "" ∧ tracked.contains d then
        { w1 with activeDomain := some d, activeStart := some now }
      else
        { w1 with activeDomain := none, activeStart := none }
    | none => { w1 with activeDomain := none, activeStart := none }
  checkLimits (persistUsage day now w2)

/-- Body of the chrome.storage.onChanged listener for a change of the
sync settings key: first the ensureInit hydration the source performs at
the top of the listener, then — when the change's newValue is truthy —
capture the tracked set of the (just rehydrated) settings as oldDomains,
install the new settings, remove the block rule of every captured domain
absent from the new tracked set, and re-run checkLimits.  Note that the
platform commits the new value to the sync store before firing the
notification, so in every reachable input world syncSettings already
holds the change's newValue when ensureInit reads it. -/
def storageChangedListener (day : Nat) (newSettings : Option Settings) (w : World) : World :=
  let w0 := ensureInit day w
  match newSettings with
  | none => w0
  | some ns =>
    let oldDomains := getTrackedDomains w0.settings
    let w1 := { w0 with settings := ns }
    let newDomains := getTrackedDomains ns
    let rules1 := oldDomains.foldl
      (fun rs d => if newDomains.contains d then rs else removeDynamicBlockRule d rs)
      w1.rules
    checkLimits { w1 with rules := rules1 }

/-- The persist-timer branch of the chrome.alarms.onAlarm listener:
ensureInit, persistUsage, checkLimits. -/
def alarmHandler (day : Nat) (now : Int) (w : World) : World :=
  checkLimits (persistUsage day now (ensureInit day w))

/-- Running a sequence of setActiveDomain events, each at its own
timestamp, within one day. -/
def runCalls (day : Nat) (calls : List (Option String × Int)) (w : World) : World :=
  calls.foldl (fun w p => setActiveDomain day p.2 p.1 w) w

/-- The domain a setActiveDomain call makes active: the argument itself
when it is a truthy tracked domain, none otherwise. -/
def effDomain (s : Settings) (c : Option String) : Option String :=
  match c with
  | some d => if d ≠ "" ∧ (getTrackedDomains s).contains d then some d else none
  | none => none

/-- Specification-side accounting: the sum, in whole seconds, of the
lengths of the disjoint intervals between consecutive call timestamps
during which d was the active domain.  The interval opened by the last
call has not been closed by a flush and is not counted. -/
def intervalSum (s : Settings) (d : String) : List (Option String × Int) → Int
  | (c, t) :: (c2, t2) :: rest =>
    (if effDomain s c = some d then (t2 - t) / 1000 else 0) +
      intervalSum s d ((c2, t2) :: rest)
  | _ => 0

/-- Contribution of a running timer cur to domain d when it is flushed at
instant t: the exact whole-second length of its interval. -/
def flushAdd (cur : Option (String × Int)) (t : Int) (d : String) : Int :=
  match cur with
  | some (dm, t0) => if dm = d then (t - t0) / 1000 else 0
  | none => 0

/-- Specification-side accounting including a pending open interval: the
timer cur was started before the calls and its interval is closed by the
first call. -/
def pendSum (s : Settings) (d : String) (cur : Option (String × Int)) :
    List (Option String × Int) → Int
  | [] => 0
  | (c, t) :: rest => flushAdd cur t d + intervalSum s d ((c, t) :: rest)

/-- Timestamps are monotone from t0, land on whole seconds relative to
their predecessor, and are positive (Date.now values). -/
def timesFrom (t0 : Int) : List (Option String × Int) → Prop
  | [] => True
  | (_, t) :: rest => (t0 ≤ t ∧ (1000 : Int) ∣ (t - t0) ∧ 0 < t) ∧ timesFrom t rest

/-- Timestamp discipline for a run that starts with no timer pending. -/
def timesOk : List (Option String × Int) → Prop
  | [] => True
  | (_, t) :: rest => 0 < t ∧ timesFrom t rest

/-- Encoding of a parsed calendar date used to compare against the
retention cutoff; strictly monotone in year, then month, then day for the
in-range values real keys carry. -/
def dateCode (y m d : Nat) : Int := ((y * 416 + m * 32 + d : Nat) : Int)

/-- Model of the JS Date constructor applied to the template string the
retention sweep builds from three optional parts.  Interpolating an
undefined part puts the literal text undefined into the string, which can
never be parsed as a date component, so the Date is invalid (none); with
all three parts present the string parses only when each part is a
decimal numeral. -/
def jsDateOfParts (a b c : Option String) : Option Int :=
  match a, b, c with
  | some x, some y, some z =>
    match x.toNat?, y.toNat?, z.toNat? with
    | some yy, some mm, some dd => some (dateCode yy mm dd)
    | _, _, _ => none
  | _, _, _ => none

/-- Key filter of cleanupOldUsage: keep a key for removal when it starts
with usage_, its remainder splits on underscores into exactly three
parts, and the Date built from parts with indices 1, 2 and 3 (the
source's off-by-one read of a three-element array) is strictly before the
cutoff.  An invalid Date compares false. -/
def cleanupKeep (cutoff : Int) (key : String) : Bool :=
  key.startsWith "usage_" &&
    (let parts := (key.drop 6).splitOn "_"
     parts.length == 3 &&
       match jsDateOfParts (parts.get? 1) (parts.get? 2) (parts.get? 3) with
       | some d => d < cutoff
       | none => false)

/-- The keysToRemove list cleanupOldUsage accumulates over all storage
keys, given the already-computed cutoff date. -/
def cleanupKeysToRemove (cutoff : Int) (allKeys : List String) : List String :=
  allKeys.filter (cleanupKeep cutoff)

/-- Character test for the scheme of a URL after its first letter. -/
def schemeChar (c : Char) : Bool :=
  c.isAlphanum || c = '+' || c = '-' || c = '.'

/-- Characters that end the authority component of a URL. -/
def authorityEnd (c : Char) : Bool :=
  c = '/' || c = '?' || c = '#'

/-- Characters the WHATWG parser rejects inside the host of a special
scheme (the model checks the common forbidden ones). -/
def badHostChar (c : Char) : Bool :=
  c = ' ' || c = '#' || c = '/' || c = '?' || c = '@' || c = ':' ||
    c = '[' || c = ']' || c = '\\' || c = '%' || c = '<' || c = '>'

/-- Schemes the WHATWG standard treats as special and that require a
non-empty validated host after //. -/
def specialNetScheme (s : String) : Bool :=
  s = "http" || s = "https" || s = "ws" || s = "wss" || s = "ftp"

/-- Model of the platform URL constructor followed by .hostname, the
expression getDomain wraps in try/catch: none models the constructor
throwing.  A valid absolute URL needs an alphabetic-initial scheme before
a colon; with a // authority the host is the authority with userinfo and
port stripped (lowercased and validated for the special network schemes,
taken as-is for other schemes, as for chrome:// pages); without an
authority the hostname is empty. -/
def urlHostname (url : String) : Option String :=
  let cs := url.data
  let scheme := cs.takeWhile (fun c => c ≠ ':')
  if scheme.length = cs.length then
    none
  else if scheme = [] ∨ ¬ (scheme.headD 'a').isAlpha ∨ ¬ (scheme.all schemeChar) then
    none
  else
    let lowScheme := String.mk (scheme.map Char.toLower)
    let rest := cs.drop (scheme.length + 1)
    match rest with
    | '/' :: '/' :: afterSlashes =>
      let authority := afterSlashes.takeWhile (fun c => !(authorityEnd c))
      let afterUser := if authority.contains '@' then
          (authority.reverse.takeWhile (fun c => c ≠ '@')).reverse
        else authority
      let host := afterUser.takeWhile (fun c => c ≠ ':')
      if specialNetScheme lowScheme then
        if host = [] ∨ host.any badHostChar then none
        else some (String.mk (host.map Char.toLower))
      else some (String.mk host)
    | _ => some ""

/-- Effect of the anchored single regex replace
hostname.replace of ^www\. with the empty string: drop one leading www.
when present (spelled on the character list so that it evaluates by
kernel reduction). -/
def stripLeadingWww (h : String) : String :=
  String.mk (if h.data.take 4 = ['w', 'w', 'w', '.'] then h.data.drop 4 else h.data)

/-- Source getDomain: new URL(url).hostname with a single leading www.
stripped by the anchored regex replace, and null when the constructor
throws. -/
def getDomain (url : String) : Option String :=
  match urlHostname url with
  | some h => some (stripLeadingWww h)
  | none => none

/-! ## Concrete states used by refutations and witnesses -/

/-- Concrete world for the C2 refutation: a persisted timer snapshot for
reddit.com whose start instant (a millisecond epoch value) belongs to the
previous calendar day. -/
def staleTimerWorld : World :=
  { syncSettings := some ⟨[("reddit.com", 20)]⟩
    usageByDay := fun _ => none
    savedActiveDomain := some "reddit.com"
    savedActiveStart := some 1700000000000
    rules := []
    settings := ⟨[]⟩
    todayUsage := fun _ => 0
    activeDomain := none
    activeStart := none }

/-- Concrete world for the C5 refutation: yesterday (day 0) youtube.com
reached its limit and its block rule is in the dynamic rule table; the
day has rolled over to day 1 and the next event is the persist-timer
alarm. -/
def rolloverWorld : World :=
  { syncSettings := some ⟨[("youtube.com", 30)]⟩
    usageByDay := fun n =>
      if n = 0 then some (fun d => if d = "youtube.com" then 3600 else 0) else none
    savedActiveDomain := none
    savedActiveStart := none
    rules := [mkBlockRule "youtube.com"]
    settings := ⟨[]⟩
    todayUsage := fun _ => 0
    activeDomain := none
    activeStart := none }

/-- Concrete running-timer world for the C6 witness: reddit.com has been
active since instant 1000000 and the flush arrives 200 ms later, so the
elapsed value rounds to zero. -/
def runningTimerWorld : World :=
  { syncSettings := none
    usageByDay := fun _ => none
    savedActiveDomain := none
    savedActiveStart := none
    rules := []
    settings := ⟨[("reddit.com", 20)]⟩
    todayUsage := fun _ => 0
    activeDomain := some "reddit.com"
    activeStart := some 1000000 }

/-- Concrete world with youtube.com at its limit, used by the C7 and C10
witnesses at different usage values: youtube.com has a 30-minute limit
and the given accumulated seconds. -/
def limitWorld (seconds : Int) : World :=
  { syncSettings := none
    usageByDay := fun _ => none
    savedActiveDomain := none
    savedActiveStart := none
    rules := []
    settings := ⟨[("youtube.com", 30)]⟩
    todayUsage := fun d => if d = "youtube.com" then seconds else 0
    activeDomain := none
    activeStart := none }

/-- Concrete world for the C3 refutation, at the instant the onChanged
notification fires: instagram.com and youtube.com were tracked and
instagram.com is currently blocked with a 1000-second ledger entry in
the local store; the user has deleted instagram.com, so the sync store
already holds the committed new settings (the platform commits before
notifying) while the in-memory settings still show the old config. -/
def instagramWorld : World :=
  { syncSettings := some ⟨[("youtube.com", 30)]⟩
    usageByDay := fun n =>
      if n = 0 then some (fun d => if d = "instagram.com" then 1000 else 0) else none
    savedActiveDomain := none
    savedActiveStart := none
    rules := [mkBlockRule "instagram.com"]
    settings := ⟨[("instagram.com", 15), ("youtube.com", 30)]⟩
    todayUsage := fun d => if d = "instagram.com" then 1000 else 0
    activeDomain := none
    activeStart := none }

/-- Concrete fresh world for the C1 witness: youtube.com tracked, empty
ledger, no running timer. -/
def freshWorld : World :=
  { syncSettings := none
    usageByDay := fun _ => none
    savedActiveDomain := none
    savedActiveStart := none
    rules := []
    settings := ⟨[("youtube.com", 30)]⟩
    todayUsage := fun _ => 0
    activeDomain := none
    activeStart := none }

/-! ## Helper lemmas -/

lemma natAbs_jsMod_lt (a : Int) : (jsMod a 10000).natAbs < 10000 := by
  cases a with
  | ofNat n => simpa [jsMod, Int.tmod] using Nat.mod_lt _ (by decide)
  | negSucc n => simpa [jsMod, Int.tmod] using Nat.mod_lt _ (by decide)

lemma jsDateOfParts_third_none (a b : Option String) :
    jsDateOfParts a b none = none := by
  cases a <;> cases b <;> rfl

lemma not_mem_of_contains_eq_false {α : Type} [BEq α] [LawfulBEq α] {l : List α} {a : α}
    (h : l.contains a = false) : a ∉ l := by
  intro hm
  have ht : l.contains a = true := List.elem_eq_true_of_mem hm
  rw [ht] at h
  cases h

lemma mem_checkFold (s : Settings) (u : String → Int) (L : List String) :
    ∀ (rules : List Rule) (r : Rule),
      r ∈ L.foldl (fun rs d => if overLimit s u d then addDynamicBlockRule d rs else rs) rules →
      r ∈ rules ∨ ∃ d ∈ L, overLimit s u d = true ∧ r = mkBlockRule d := by
  induction L with
  | nil => intro rules r h; exact Or.inl h
  | cons a L ih =>
    intro rules r h
    rw [List.foldl_cons] at h
    by_cases ha : overLimit s u a = true
    · rw [if_pos ha] at h
      rcases ih _ r h with h1 | ⟨d, hd, ho, he⟩
      · simp only [addDynamicBlockRule, updateDynamicRules] at h1
        rcases List.mem_append.mp h1 with h2 | h2
        · exact Or.inl (List.mem_of_mem_filter h2)
        · exact Or.inr ⟨a, List.mem_cons_self a L, ha, List.mem_singleton.mp h2⟩
      · exact Or.inr ⟨d, List.mem_cons_of_mem a hd, ho, he⟩
    · rw [if_neg ha] at h
      rcases ih _ r h with h1 | ⟨d, hd, ho, he⟩
      · exact Or.inl h1
      · exact Or.inr ⟨d, List.mem_cons_of_mem a hd, ho, he⟩

lemma mem_checkLimitsRules (s : Settings) (u : String → Int) (rules : List Rule) (r : Rule)
    (h : r ∈ checkLimitsRules s u rules) :
    r ∈ rules ∨ ∃ d ∈ getTrackedDomains s, overLimit s u d = true ∧ r = mkBlockRule d :=
  mem_checkFold s u (getTrackedDomains s) rules r h

lemma checkFold_decompose (s : Settings) (u : String → Int) :
    ∀ (L : List String) (rules : List Rule),
      L.foldl (fun rs d => if overLimit s u d then addDynamicBlockRule d rs else rs) rules =
        rules.filter (fun r => !((appliedIds s u L).contains r.id)) ++
          L.foldl (fun rs d => if overLimit s u d then addDynamicBlockRule d rs else rs) [] := by
  intro L
  induction L with
  | nil => intro rules; simp [appliedIds]
  | cons a L ih =>
    intro rules
    by_cases ha : overLimit s u a = true
    · rw [List.foldl_cons, List.foldl_cons, if_pos ha, if_pos ha]
      rw [ih (addDynamicBlockRule a rules), ih (addDynamicBlockRule a [])]
      have hids : appliedIds s u (a :: L) = ruleIdFor a :: appliedIds s u L := by
        simp [appliedIds, ha]
      rw [hids]
      simp only [addDynamicBlockRule, updateDynamicRules, List.filter_append,
        List.filter_nil, List.nil_append, List.append_assoc]
      congr 1
      · rw [List.filter_filter]
        apply List.filter_congr
        intro r _
        simp [List.contains_cons, Bool.not_or, Bool.and_comm]
    · rw [List.foldl_cons, List.foldl_cons, if_neg ha, if_neg ha]
      have hids : appliedIds s u (a :: L) = appliedIds s u L := by
        simp [appliedIds, ha]
      rw [hids, ih rules]

lemma checkFold_mem_appliedIds (s : Settings) (u : String → Int) (L : List String) (r : Rule)
    (h : r ∈ L.foldl (fun rs d => if overLimit s u d then addDynamicBlockRule d rs else rs) []) :
    r.id ∈ appliedIds s u L := by
  rcases mem_checkFold s u L [] r h with h1 | ⟨d, hd, ho, he⟩
  · cases h1
  · subst he
    exact List.mem_map.mpr ⟨d, List.mem_filter.mpr ⟨hd, ho⟩, rfl⟩

lemma checkFold_ids_nodup (s : Settings) (u : String → Int) :
    ∀ (L : List String) (rules : List Rule), (rules.map Rule.id).Nodup →
      ((L.foldl (fun rs d => if overLimit s u d then addDynamicBlockRule d rs else rs)
        rules).map Rule.id).Nodup := by
  intro L
  induction L with
  | nil => intro rules h; exact h
  | cons a L ih =>
    intro rules h
    rw [List.foldl_cons]
    by_cases ha : overLimit s u a = true
    · rw [if_pos ha]
      apply ih
      simp only [addDynamicBlockRule, updateDynamicRules, List.map_append]
      rw [List.nodup_append]
      refine ⟨((List.filter_sublist _).map _).nodup h, by simp, ?_⟩
      intro x hx hx2
      rcases List.mem_map.mp hx with ⟨r, hr, hrx⟩
      have hp := (List.mem_filter.mp hr).2
      simp only [List.contains_cons, List.contains_nil, Bool.or_false, Bool.not_eq_true',
        beq_eq_false_iff_ne, ne_eq] at hp
      simp only [List.map_cons, List.map_nil, List.mem_singleton] at hx2
      exact hp (by rw [hrx, hx2]; rfl)
    · rw [if_neg ha]
      exact ih rules h

lemma flushActiveTimer_settings (t : Int) (w : World) :
    (flushActiveTimer t w).settings = w.settings := by
  unfold flushActiveTimer
  split
  · split
    · dsimp only
      split <;> rfl
    · rfl
  · rfl

lemma flushActiveTimer_no_start (t : Int) (w : World) (h : w.activeStart = none) :
    flushActiveTimer t w = w := by
  cases hdom : w.activeDomain <;> simp [flushActiveTimer, hdom, h]

lemma flushActiveTimer_at_start (t : Int) (w : World) (h : w.activeStart = some t) :
    flushActiveTimer t w = w := by
  have h0 : jsRoundDiv1000 (0 : Int) = 0 := by decide
  cases hdom : w.activeDomain <;> simp [flushActiveTimer, hdom, h, h0]

lemma flushActiveTimer_books_interval (t : Int) (w : World) (dm : String) (t0 : Int)
    (hdom : w.activeDomain = some dm) (hstart : w.activeStart = some t0)
    (hne : dm ≠ "") (hpos : 0 < t0) (hle : t0 ≤ t) (hdvd : (1000 : Int) ∣ (t - t0)) :
    ∀ d, (flushActiveTimer t w).todayUsage d =
        w.todayUsage d + (if dm = d then (t - t0) / 1000 else 0) := by
  obtain ⟨k, hk⟩ := hdvd
  have hk0 : 0 ≤ k := by omega
  have helapsed : jsRoundDiv1000 (t - t0) = k := by
    rw [hk, jsRoundDiv1000, Int.fdiv_eq_ediv _ (by omega)]
    omega
  have hdivk : (t - t0) / 1000 = k := by
    rw [hk]
    omega
  intro d
  simp only [flushActiveTimer, hdom, hstart]
  rw [if_pos ⟨hne, by omega⟩, helapsed, hdivk]
  by_cases h0 : 0 < k
  · rw [if_pos h0]
    simp only [setUsage]
    by_cases hd : d = dm
    · subst hd
      simp
    · rw [if_neg hd, if_neg (fun hh => hd hh.symm), add_zero]
  · have hkz : k = 0 := by omega
    rw [if_neg h0, hkz]
    simp

lemma effDomain_ne_empty (s : Settings) (c : Option String) (dm : String)
    (h : effDomain s c = some dm) : dm ≠ "" := by
  cases c with
  | none => cases h
  | some e =>
    simp only [effDomain] at h
    split at h
    · rename_i hcond
      injection h with he
      subst he
      exact hcond.1
    · cases h

lemma timesOk_of_timesFrom (t : Int) (l : List (Option String × Int))
    (h : timesFrom t l) : timesOk l := by
  cases l with
  | nil => trivial
  | cons p rest =>
    obtain ⟨c, t1⟩ := p
    simp only [timesFrom] at h
    exact ⟨h.1.2.2, h.2⟩

lemma intervalSum_eq_pendSum (s : Settings) (d : String) (c : Option String) (t : Int)
    (rest : List (Option String × Int)) :
    intervalSum s d ((c, t) :: rest) =
      pendSum s d ((effDomain s c).map (fun dm => (dm, t))) rest := by
  cases rest with
  | nil =>
    cases heff : effDomain s c <;> simp [intervalSum, pendSum]
  | cons q rest2 =>
    obtain ⟨c2, t2⟩ := q
    cases heff : effDomain s c with
    | none => simp [intervalSum, pendSum, flushAdd, heff]
    | some dm =>
      simp only [intervalSum, pendSum, flushAdd, heff, Option.map_some']
      by_cases hdm : dm = d
      · subst hdm
        simp
      · rw [if_neg hdm, if_neg (fun hh => hdm (Option.some.inj hh))]

lemma setActiveDomain_fields (day : Nat) (t : Int) (c : Option String) (w : World) :
    (setActiveDomain day t c w).todayUsage = (flushActiveTimer t w).todayUsage ∧
      (setActiveDomain day t c w).settings = w.settings ∧
      (setActiveDomain day t c w).activeDomain = effDomain w.settings c ∧
      (setActiveDomain day t c w).activeStart = (effDomain w.settings c).map (fun _ => t) := by
  have hback : ∀ w2 : World, w2.activeStart = some t ∨ w2.activeStart = none →
      (checkLimits (persistUsage day t w2)).todayUsage = w2.todayUsage ∧
        (checkLimits (persistUsage day t w2)).settings = w2.settings ∧
        (checkLimits (persistUsage day t w2)).activeDomain = w2.activeDomain ∧
        (checkLimits (persistUsage day t w2)).activeStart = w2.activeStart := by
    intro w2 h2
    have hfl : flushActiveTimer t w2 = w2 := by
      rcases h2 with h2 | h2
      · exact flushActiveTimer_at_start t w2 h2
      · exact flushActiveTimer_no_start t w2 h2
    have h1 : (flushActiveTimer t w2).todayUsage = w2.todayUsage :=
      congrArg World.todayUsage hfl
    have h2a : (flushActiveTimer t w2).settings = w2.settings :=
      congrArg World.settings hfl
    have h3 : (flushActiveTimer t w2).activeDomain = w2.activeDomain :=
      congrArg World.activeDomain hfl
    have h4 : (flushActiveTimer t w2).activeStart = w2.activeStart :=
      congrArg World.activeStart hfl
    exact ⟨h1, h2a, h3, h4⟩
  simp only [setActiveDomain]
  cases c with
  | none =>
    have h := hback { flushActiveTimer t w with activeDomain := none, activeStart := none }
      (Or.inr rfl)
    exact ⟨h.1, h.2.1.trans (flushActiveTimer_settings t w), h.2.2.1, h.2.2.2⟩
  | some dstr =>
    simp only []
    by_cases hc : dstr ≠ "" ∧ (getTrackedDomains (flushActiveTimer t w).settings).contains dstr
    · rw [if_pos hc]
      have h := hback
        { flushActiveTimer t w with activeDomain := some dstr, activeStart := some t }
        (Or.inl rfl)
      have hc' : dstr ≠ "" ∧ (getTrackedDomains w.settings).contains dstr := by
        rwa [flushActiveTimer_settings] at hc
      have heff : effDomain w.settings (some dstr) = some dstr := by
        simp only [effDomain]
        rw [if_pos hc']
      rw [heff]
      exact ⟨h.1, h.2.1.trans (flushActiveTimer_settings t w), h.2.2.1, h.2.2.2⟩
    · rw [if_neg hc]
      have h := hback { flushActiveTimer t w with activeDomain := none, activeStart := none }
        (Or.inr rfl)
      have hc' : ¬ (dstr ≠ "" ∧ (getTrackedDomains w.settings).contains dstr) := by
        rwa [flushActiveTimer_settings] at hc
      have heff : effDomain w.settings (some dstr) = none := by
        simp only [effDomain]
        rw [if_neg hc']
      rw [heff]
      exact ⟨h.1, h.2.1.trans (flushActiveTimer_settings t w), h.2.2.1, h.2.2.2⟩

lemma setActiveDomain_usage (day : Nat) (t : Int) (c : Option String) (w : World)
    (cur : Option (String × Int))
    (hdom : w.activeDomain = cur.map Prod.fst)
    (hstart : w.activeStart = cur.map Prod.snd)
    (hcur : ∀ dm t0, cur = some (dm, t0) →
      dm ≠ "" ∧ 0 < t0 ∧ t0 ≤ t ∧ (1000 : Int) ∣ (t - t0)) :
    ∀ d, (setActiveDomain day t c w).todayUsage d = w.todayUsage d + flushAdd cur t d := by
  intro d
  rw [congrFun (setActiveDomain_fields day t c w).1 d]
  cases cur with
  | none =>
    have hw1 : flushActiveTimer t w = w := flushActiveTimer_no_start t w (by simpa using hstart)
    rw [hw1]
    simp [flushAdd]
  | some q =>
    obtain ⟨dm, t0⟩ := q
    obtain ⟨hne, hpos, hle, hdvd⟩ := hcur dm t0 rfl
    rw [flushActiveTimer_books_interval t w dm t0 (by simpa using hdom)
      (by simpa using hstart) hne hpos hle hdvd d]
    simp [flushAdd]

lemma runCalls_usage_aux (day : Nat) (s : Settings) (d : String) :
    ∀ (calls : List (Option String × Int)) (w : World) (cur : Option (String × Int)),
      w.settings = s →
      w.activeDomain = cur.map Prod.fst →
      w.activeStart = cur.map Prod.snd →
      (∀ dm t0, cur = some (dm, t0) → dm ≠ "" ∧ 0 < t0 ∧ timesFrom t0 calls) →
      (cur = none → timesOk calls) →
      (runCalls day calls w).todayUsage d = w.todayUsage d + pendSum s d cur calls := by
  intro calls
  induction calls with
  | nil =>
    intro w cur hs hdom hstart hcur hok
    simp [runCalls, pendSum]
  | cons p rest ih =>
    obtain ⟨c, t⟩ := p
    intro w cur hs hdom hstart hcur hok
    have htimes : (∀ dm t0, cur = some (dm, t0) → t0 ≤ t ∧ (1000 : Int) ∣ (t - t0)) ∧
        0 < t ∧ timesFrom t rest := by
      cases cur with
      | none =>
        have h := hok rfl
        simp only [timesOk] at h
        exact ⟨(fun dm t0 hh => nomatch hh), h.1, h.2⟩
      | some q =>
        obtain ⟨dm, t0⟩ := q
        obtain ⟨hne, hpos, htf⟩ := hcur dm t0 rfl
        simp only [timesFrom] at htf
        obtain ⟨⟨hle, hdvd, hpt⟩, htail⟩ := htf
        refine ⟨?_, hpt, htail⟩
        intro dm2 t02 hh
        cases hh
        exact ⟨hle, hdvd⟩
    have hstep := setActiveDomain_usage day t c w cur hdom hstart
      (fun dm t0 hh =>
        ⟨(hcur dm t0 hh).1, (hcur dm t0 hh).2.1, (htimes.1 dm t0 hh).1, (htimes.1 dm t0 hh).2⟩)
    have hfields := setActiveDomain_fields day t c w
    have hs' : (setActiveDomain day t c w).settings = s := hfields.2.1.trans hs
    have hdom' : (setActiveDomain day t c w).activeDomain =
        ((effDomain s c).map (fun dm => (dm, t))).map Prod.fst := by
      rw [hfields.2.2.1, hs]
      cases effDomain s c <;> rfl
    have hstart' : (setActiveDomain day t c w).activeStart =
        ((effDomain s c).map (fun dm => (dm, t))).map Prod.snd := by
      rw [hfields.2.2.2, hs]
      cases effDomain s c <;> rfl
    have hcur' : ∀ dm t0, (effDomain s c).map (fun dm => (dm, t)) = some (dm, t0) →
        dm ≠ "" ∧ 0 < t0 ∧ timesFrom t0 rest := by
      intro dm t0 hh
      cases heff : effDomain s c with
      | none => rw [heff] at hh; cases hh
      | some e =>
        rw [heff] at hh
        simp only [Option.map_some'] at hh
        injection hh with hh2
        injection hh2 with he ht
        subst he
        subst ht
        exact ⟨effDomain_ne_empty s c e heff, htimes.2.1, htimes.2.2⟩
    have hok' : (effDomain s c).map (fun dm => (dm, t)) = none → timesOk rest :=
      fun _ => timesOk_of_timesFrom t rest htimes.2.2
    have hrun : runCalls day ((c, t) :: rest) w =
        runCalls day rest (setActiveDomain day t c w) := by
      simp only [runCalls, List.foldl_cons]
    have hrec := ih (setActiveDomain day t c w) ((effDomain s c).map (fun dm => (dm, t)))
      hs' hdom' hstart' hcur' hok'
    rw [hrun, hrec, hstep d, pendSum, intervalSum_eq_pendSum]
    ring

/-! ## Claim theorems -/

/-- C8: ruleIdFor is a pure deterministic function of the domain string
(equal domain strings yield equal ids) and every value it returns lies in
the reserved range from 1000 to 10999. -/
theorem ruleIdFor_deterministic_and_in_range (d e : String) (h : d = e) :
    ruleIdFor d = ruleIdFor e ∧ 1000 ≤ ruleIdFor d ∧ ruleIdFor d ≤ 10999 := by
  subst h
  refine ⟨rfl, ?_, ?_⟩
  · simp only [ruleIdFor, DYNAMIC_RULE_ID_START]
    omega
  · have h1 := natAbs_jsMod_lt (d.data.foldl (fun h c => toInt32 (h * 31 + (c.toNat : Int))) 0)
    simp only [ruleIdFor, DYNAMIC_RULE_ID_START]
    omega

/-- Witness for C8 at a concrete domain string. -/
theorem ruleIdFor_deterministic_and_in_range_witness :
    ruleIdFor "youtube.com" = ruleIdFor "youtube.com" ∧
      1000 ≤ ruleIdFor "youtube.com" ∧ ruleIdFor "youtube.com" ≤ 10999 :=
  ruleIdFor_deterministic_and_in_range "youtube.com" "youtube.com" rfl

/-- C4 is a code bug: the retention sweep of the shipped revision reads
parts with indices 1, 2 and 3 of the three-element split (index 3 does
not exist), so every constructed Date is invalid, the cutoff comparison
is always false, and no usage key is ever removed, however old. -/
theorem cleanupOldUsage_removes_nothing (cutoff : Int) (allKeys : List String) :
    cleanupKeysToRemove cutoff allKeys = [] := by
  rw [cleanupKeysToRemove, List.filter_eq_nil_iff]
  intro key _
  intro hkeep
  simp only [cleanupKeep, Bool.and_eq_true, beq_iff_eq] at hkeep
  obtain ⟨-, hlen, hmatch⟩ := hkeep
  have h3 : ((key.drop 6).splitOn "_").get? 3 = none := by
    rw [List.get?_eq_none]
    omega
  rw [h3, jsDateOfParts_third_none] at hmatch
  exact Bool.false_ne_true hmatch

/-- C2 is a code bug: ensureInit loads the persisted active-timer snapshot
unconditionally.  Hydrating on a later calendar day (here day index 1,
while the persisted start instant was taken on day 0) keeps the timer
instead of discarding it, so the elapsed time spanning midnight is
attributed to the new day's ledger at the next flush. -/
theorem ensureInit_carries_cross_day_timer :
    (ensureInit 1 staleTimerWorld).activeDomain = some "reddit.com" ∧
      (ensureInit 1 staleTimerWorld).activeStart = some 1700000000000 := by
  exact ⟨rfl, rfl⟩

/-- C5 is a code bug: after a day rollover the next event does start from
the new day's empty ledger, but an ordinary event (here the persist-timer
alarm) never removes the previous day's block rules — only the
onInstalled / onStartup handlers call removeAllDynamicBlockRules — so
yesterday's rule survives reconciliation against the now-zero usage. -/
theorem alarm_after_rollover_keeps_stale_rule :
    (alarmHandler 1 1700100000000 rolloverWorld).todayUsage "youtube.com" = 0 ∧
      mkBlockRule "youtube.com" ∈ (alarmHandler 1 1700100000000 rolloverWorld).rules := by
  constructor
  · rfl
  · decide

/-- C9 counterexample: an internal browser page URL parses, so getDomain
does not return none for it; the claimed non-tracked-scheme filtering
does not exist in the code. -/
theorem getDomain_internal_page_counterexample :
    getDomain "chrome://newtab/" = some "newtab" ∧
      getDomain "chrome://newtab/" ≠ none := by
  refine ⟨by decide, by decide⟩

/-- C9 amended: getDomain returns none exactly when the URL constructor
throws; for every URL that parses (internal pages included) it returns
the hostname with one leading www. stripped, where the strip removes
exactly the four characters www. when they lead the hostname and is the
identity otherwise. -/
theorem getDomain_characterization (url : String) :
    (getDomain url = none ↔ urlHostname url = none) ∧
      (∀ h, urlHostname url = some h → getDomain url = some (stripLeadingWww h)) ∧
      (∀ l : List Char, stripLeadingWww (String.mk ('w' :: 'w' :: 'w' :: '.' :: l)) =
        String.mk l) ∧
      (∀ h : String, h.data.take 4 ≠ ['w', 'w', 'w', '.'] → stripLeadingWww h = h) := by
  refine ⟨?_, ?_, ?_, ?_⟩
  · unfold getDomain
    cases urlHostname url <;> simp
  · intro h hh
    unfold getDomain
    rw [hh]
  · intro l
    simp [stripLeadingWww]
  · intro h hne
    simp only [stripLeadingWww, if_neg hne]

/-- Witness for C9's amended theorem on a well-formed tracked URL. -/
theorem getDomain_characterization_witness :
    getDomain "https://www.youtube.com/watch" = some (stripLeadingWww "www.youtube.com") :=
  (getDomain_characterization "https://www.youtube.com/watch").2.1 "www.youtube.com" (by decide)

/-- C6: a flush whose computed elapsed value is non-positive changes
neither the usage ledger nor the timer (first conjunct), and in
particular flushing twice at the same instant is the same as flushing
once, so the second flush leaves accumulated usage unchanged (second
conjunct). -/
theorem flushActiveTimer_nonpositive_noop (w : World) (now : Int) :
    (∀ s, w.activeStart = some s → jsRoundDiv1000 (now - s) ≤ 0 →
        flushActiveTimer now w = w) ∧
      flushActiveTimer now (flushActiveTimer now w) = flushActiveTimer now w := by
  constructor
  · intro s hs hle
    cases had : w.activeDomain with
    | none => simp [flushActiveTimer, had, hs]
    | some d =>
      have hnl : ¬ (0 < jsRoundDiv1000 (now - s)) := not_lt.mpr hle
      simp [flushActiveTimer, had, hs, hnl]
  · cases had : w.activeDomain with
    | none =>
      have h1 : flushActiveTimer now w = w := by simp [flushActiveTimer, had]
      rw [h1, h1]
    | some d =>
      cases has : w.activeStart with
      | none =>
        have h1 : flushActiveTimer now w = w := by simp [flushActiveTimer, had, has]
        rw [h1, h1]
      | some s =>
        by_cases htr : d ≠ "" ∧ s ≠ 0
        · by_cases hel : 0 < jsRoundDiv1000 (now - s)
          · have h0 : jsRoundDiv1000 (0 : Int) = 0 := by decide
            have h1 : flushActiveTimer now w =
                { w with
                  todayUsage :=
                    setUsage w.todayUsage d (w.todayUsage d + jsRoundDiv1000 (now - s))
                  activeStart := some now } := by
              simp [flushActiveTimer, had, has, htr, hel]
            rw [h1]
            by_cases hz : now = 0
            · simp [flushActiveTimer, had, hz]
            · simp [flushActiveTimer, had, htr.1, hz, h0]
          · have h1 : flushActiveTimer now w = w := by
              simp [flushActiveTimer, had, has, htr, hel]
            rw [h1, h1]
        · have h1 : flushActiveTimer now w = w := by
            simp [flushActiveTimer, had, has, htr]
          rw [h1, h1]

/-- Witness for C6: at 200 ms after the timer start the rounded elapsed
time is 0 and the flush is a no-op, and a double flush equals a single
one. -/
theorem flushActiveTimer_nonpositive_noop_witness :
    flushActiveTimer 1000200 runningTimerWorld = runningTimerWorld ∧
      flushActiveTimer 1000200 (flushActiveTimer 1000200 runningTimerWorld) =
        flushActiveTimer 1000200 runningTimerWorld := by
  have h := flushActiveTimer_nonpositive_noop runningTimerWorld 1000200
  exact ⟨h.1 1000000 rfl (by decide), h.2⟩

/-- C1: starting from an empty ledger with no running timer, any sequence
of setActiveDomain calls at monotone, positive, whole-second timestamps
within one day leaves, for every domain, an accumulated usage equal to
the sum of the lengths (in seconds) of the disjoint inter-call intervals
during which that domain was the active domain: nothing is counted twice
and nothing is lost at the flush boundaries. -/
theorem setActiveDomain_usage_exact (day : Nat) (calls : List (Option String × Int))
    (w : World) (d : String)
    (hu : w.todayUsage = fun _ => 0)
    (hdom : w.activeDomain = none) (hstart : w.activeStart = none)
    (ht : timesOk calls) :
    (runCalls day calls w).todayUsage d = intervalSum w.settings d calls := by
  have h := runCalls_usage_aux day w.settings d calls w none rfl (by simp [hdom])
    (by simp [hstart]) (fun dm t0 hh => nomatch hh) (fun _ => ht)
  rw [h, hu]
  cases calls with
  | nil => simp [pendSum, intervalSum]
  | cons p rest =>
    obtain ⟨c, t⟩ := p
    simp [pendSum, flushAdd]

/-- Witness for C1: focusing youtube.com at instant 1000000 and leaving
it at instant 1301000 books exactly 301 seconds. -/
theorem setActiveDomain_usage_exact_witness :
    (runCalls 0 [(some "youtube.com", 1000000), (none, 1301000)] freshWorld).todayUsage
        "youtube.com" = 301 := by
  have h := setActiveDomain_usage_exact 0 [(some "youtube.com", 1000000), (none, 1301000)]
    freshWorld "youtube.com" rfl rfl rfl
    (by
      simp only [timesOk, timesFrom]
      exact ⟨by omega, ⟨⟨by omega, by omega, by omega⟩, trivial⟩⟩)
  exact h.trans (by decide)

/-- C10: a reconciliation pass adds block rules only for domains that are
keys of the current PolicyConfig; every rule of the resulting table was
either already present or belongs to a tracked domain, so an orphaned
ledger entry never causes rule creation. -/
theorem checkLimits_adds_only_tracked (w : World) (r : Rule)
    (h : r ∈ (checkLimits w).rules) :
    r ∈ w.rules ∨ r.domain ∈ getTrackedDomains w.settings := by
  rcases mem_checkLimitsRules w.settings w.todayUsage w.rules r h with h1 | ⟨d, hd, _, he⟩
  · exact Or.inl h1
  · subst he
    exact Or.inr hd

/-- Witness for C10: youtube.com at its limit gets its rule, and that
rule's domain is tracked. -/
theorem checkLimits_adds_only_tracked_witness :
    mkBlockRule "youtube.com" ∈ (limitWorld 1800).rules ∨
      (mkBlockRule "youtube.com").domain ∈ getTrackedDomains (limitWorld 1800).settings :=
  checkLimits_adds_only_tracked (limitWorld 1800) (mkBlockRule "youtube.com") (by decide)

/-- C7: reconciliation is idempotent on the block-rule table — a second
checkLimits pass with unchanged PolicyConfig and unchanged ledger leaves
the whole state as after the first — and it creates no duplicate rules
(distinct rule ids stay distinct). -/
theorem checkLimits_idempotent_no_duplicates (w : World) :
    checkLimits (checkLimits w) = checkLimits w ∧
      ((w.rules.map Rule.id).Nodup → (((checkLimits w).rules).map Rule.id).Nodup) := by
  have hdec2 : ∀ T : List Rule, checkLimitsRules w.settings w.todayUsage T =
      T.filter (fun r =>
        !((appliedIds w.settings w.todayUsage (getTrackedDomains w.settings)).contains
          r.id)) ++ checkLimitsRules w.settings w.todayUsage [] :=
    checkFold_decompose w.settings w.todayUsage (getTrackedDomains w.settings)
  have hnilfilter :
      (checkLimitsRules w.settings w.todayUsage []).filter
        (fun r =>
          !((appliedIds w.settings w.todayUsage (getTrackedDomains w.settings)).contains
            r.id)) = [] := by
    rw [List.filter_eq_nil_iff]
    intro r hr hp
    have hmem := checkFold_mem_appliedIds w.settings w.todayUsage _ r hr
    simp only [Bool.not_eq_true'] at hp
    exact not_mem_of_contains_eq_false hp hmem
  have key : checkLimitsRules w.settings w.todayUsage
        (checkLimitsRules w.settings w.todayUsage w.rules) =
      checkLimitsRules w.settings w.todayUsage w.rules := by
    rw [hdec2 (checkLimitsRules w.settings w.todayUsage w.rules), hdec2 w.rules,
      List.filter_append, hnilfilter, List.append_nil, List.filter_filter]
    congr 2
    funext r
    rw [Bool.and_self]
  constructor
  · show checkLimits { w with
        rules := checkLimitsRules w.settings w.todayUsage w.rules } = _
    simp only [checkLimits]
    rw [key]
  · intro hnd
    show ((checkLimitsRules w.settings w.todayUsage w.rules).map Rule.id).Nodup
    rw [hdec2 w.rules, List.map_append, List.nodup_append]
    refine ⟨((List.filter_sublist _).map _).nodup hnd,
      checkFold_ids_nodup w.settings w.todayUsage _ [] (by simp), ?_⟩
    intro x hx hx2
    rcases List.mem_map.mp hx with ⟨r, hr, hrx⟩
    rcases List.mem_map.mp hx2 with ⟨r2, hr2, hrx2⟩
    have hp := (List.mem_filter.mp hr).2
    simp only [Bool.not_eq_true'] at hp
    have hmem := checkFold_mem_appliedIds w.settings w.todayUsage _ r2 hr2
    rw [hrx2] at hmem
    rw [hrx] at hp
    exact not_mem_of_contains_eq_false hp hmem

/-- Witness for C7 at the concrete over-limit world. -/
theorem checkLimits_idempotent_no_duplicates_witness :
    checkLimits (checkLimits (limitWorld 1800)) = checkLimits (limitWorld 1800) ∧
      (((checkLimits (limitWorld 1800)).rules).map Rule.id).Nodup := by
  have h := checkLimits_idempotent_no_duplicates (limitWorld 1800)
  exact ⟨h.1, h.2 (by decide)⟩

/-- C3 is a code bug: the onChanged listener hydrates with ensureInit
before capturing oldDomains, but the platform has already committed the
new settings to the sync store when the notification fires, so ensureInit
overwrites the in-memory settings with the new value and oldDomains is
computed from the new config (third conjunct: the captured tracked set
already equals the new tracked set).  The removal loop is therefore
vacuous and the deleted domain's block rule survives the handler (first
conjunct), while its orphaned ledger entry remains (second conjunct) —
the claim says the rule is removed. -/
theorem settingsChanged_keeps_dropped_domain_rule :
    mkBlockRule "instagram.com" ∈
        (storageChangedListener 0 (some ⟨[("youtube.com", 30)]⟩) instagramWorld).rules ∧
      (storageChangedListener 0 (some ⟨[("youtube.com", 30)]⟩) instagramWorld).todayUsage
          "instagram.com" = 1000 ∧
      getTrackedDomains (ensureInit 0 instagramWorld).settings =
        getTrackedDomains (⟨[("youtube.com", 30)]⟩ : Settings) := by
  refine ⟨by decide, by decide, by decide⟩

end Blocker
